import Mathlib

/-!
Verification development for the concurrency benchmark harness of the
local-blockchain-setup repository.  The embedding covers:

* the per-task retry engine of workerBenchmark.js and
  scripts/workerAccountBalance.js (the Piscina worker bodies);
* the concurrency-limited scheduler runTasksWithConcurrency of the
  single-process benchmark script;
* the result aggregation and final-state verification performed by the
  two runner scripts (runWorkerBenchmark.js and
  runAccountBalanceBenchmark.js).

JavaScript strings that carry decimal integers (BigInt values, wei
amounts) are modelled as Nat; receipt status values are Nat.
-/

namespace Harness

/-- Character-list version of a starts-with test, used to build the
substring test that models the JavaScript String.includes method. -/
def leadsWith : List Char → List Char → Bool
  | [], _ => true
  | _ :: _, [] => false
  | p :: ps, c :: cs => p == c && leadsWith ps cs

/-- Occurrence of a pattern anywhere in a character list: models the
JavaScript String.includes method on the underlying characters. -/
def occursIn (pat : List Char) : List Char → Bool
  | [] => leadsWith pat []
  | c :: cs => leadsWith pat (c :: cs) || occursIn pat cs

/-- Substring test on strings: s.includes(pat) in JavaScript. -/
def strHas (s pat : String) : Bool := occursIn pat.data s.data

/-- Lower-casing of a string: the JavaScript String.toLowerCase call
applied to error messages before classification. -/
def lowerCase (s : String) : String := String.mk (s.data.map Char.toLower)

/-- Error raised by submission or confirmation: the ethers error object,
with its optional code property and its message. -/
structure ErrInfo where
  code : Option String
  message : String
deriving Repr, DecidableEq

/-- Result of one submission attempt as seen by the worker body: either a
mined receipt carrying a status, or a raised error. -/
inductive AttemptResult where
  | receipt (status : Nat)
  | raise (e : ErrInfo)
deriving Repr, DecidableEq

/-- Nonce-conflict classification from the catch block of both worker
files: code NONCE_EXPIRED, or the lower-cased message containing one of
the three nonce-related substrings. -/
def isNonceError (e : ErrInfo) : Bool :=
  e.code == some "NONCE_EXPIRED" ||
  strHas (lowerCase e.message) "nonce too low" ||
  strHas (lowerCase e.message) "nonce has already been used" ||
  strHas (lowerCase e.message) "replacement transaction underpriced"

/-- Transient-network classification from the catch block of both worker
files: the lower-cased message contains one of the four network-related
substrings. -/
def isNetworkError (e : ErrInfo) : Bool :=
  strHas (lowerCase e.message) "failed to detect network" ||
  strHas (lowerCase e.message) "could not detect network" ||
  strHas (lowerCase e.message) "timeout" ||
  strHas (lowerCase e.message) "network error"

/-- Combined retryability test: the guard isNonceError or isNetworkError
of the catch block. -/
def isRetryableError (e : ErrInfo) : Bool := isNonceError e || isNetworkError e

/-- Retry configuration of a worker file: the MAX_ATTEMPTS and
RETRY_DELAY_MS constants. -/
structure RetryPolicy where
  maxAttempts : Nat
  baseDelay : Nat
deriving Repr, DecidableEq

/-- Retry policy of workerBenchmark.js: MAX_ATTEMPTS 100,
RETRY_DELAY_MS 1000. -/
def counterRetryPolicy : RetryPolicy := { maxAttempts := 100, baseDelay := 1000 }

/-- Retry policy of scripts/workerAccountBalance.js: MAX_ATTEMPTS 1000,
RETRY_DELAY_MS 2000. -/
def depositRetryPolicy : RetryPolicy := { maxAttempts := 1000, baseDelay := 2000 }

/-- Terminal result object returned by a worker body.  success and error
mirror the fields of the JavaScript result object; amount models the
amountDeposited string of workerAccountBalance.js as a Nat (the counter
worker has no such field and ignores it). -/
structure WorkerResult where
  success : Bool
  error : Option String
  amount : Nat
deriving Repr, DecidableEq

/-- Error message stored when a receipt carries status 0. -/
def revertMsg : String := "Transaction reverted with status 0"

/-- Default result installed before the retry loop runs. -/
def initialResult : WorkerResult :=
  { success := false, error := some "Max attempts reached", amount := 0 }

/-- Body of the retry while loop of both worker files.  fuel bounds the
number of remaining iterations (the caller passes maxAttempts, matching
the loop condition attempt < MAX_ATTEMPTS, so the fuel never runs out
before the condition fails); attempt is the loop counter; acc is the
current value of the result variable; dep is depositAmountWei; env gives
the outcome of each numbered attempt.  Returns the final result, the
final value of the attempt counter, and the chronological list of
backoff delays awaited between attempts. -/
def runAttemptsAux (pol : RetryPolicy) (dep : Nat) (env : Nat → AttemptResult) :
    Nat → Nat → WorkerResult → WorkerResult × Nat × List Nat
  | 0, attempt, acc => (acc, attempt, [])
  | fuel + 1, attempt, acc =>
    if attempt < pol.maxAttempts then
      let a := attempt + 1
      match env a with
      | AttemptResult.receipt st =>
        if st = 1 then
          ({ success := true, error := none, amount := dep }, a, [])
        else
          ({ success := false, error := some revertMsg, amount := 0 }, a, [])
      | AttemptResult.raise e =>
        if isRetryableError e = true ∧ a < pol.maxAttempts then
          let d := pol.baseDelay * 2 ^ (a - 1)
          let rest := runAttemptsAux pol dep env fuel a
            { success := false, error := some e.message, amount := 0 }
          (rest.1, rest.2.1, d :: rest.2.2)
        else
          ({ success := false, error := some e.message, amount := 0 }, a, [])
    else (acc, attempt, [])

/-- Whole worker body: the retry loop started with attempt 0 and the
default failure result, run with fuel maxAttempts. -/
def runWorker (pol : RetryPolicy) (dep : Nat) (env : Nat → AttemptResult) :
    WorkerResult × Nat × List Nat :=
  runAttemptsAux pol dep env pol.maxAttempts 0 initialResult

/-- Mutable state of runTasksWithConcurrency: the length of the results
array (only the value true is ever pushed), the errors counter, the
activeCount counter, and the taskIndex pointer into the task array. -/
structure RunState where
  results : Nat
  errors : Nat
  activeCount : Nat
  taskIndex : Nat
deriving Repr, DecidableEq

/-- State at the start of a run: empty results, no errors, nothing
launched. -/
def initState : RunState :=
  { results := 0, errors := 0, activeCount := 0, taskIndex := 0 }

/-- Inner while loop of runNext: launch tasks while activeCount is below
the limit and tasks remain.  Each iteration increments taskIndex and
activeCount.  fuel bounds the iterations; the wrapper passes the number
of unlaunched tasks, which the guard taskIndex < total keeps from
running out early. -/
def launchAux (limit total : Nat) : Nat → RunState → RunState
  | 0, s => s
  | fuel + 1, s =>
    if s.activeCount < limit ∧ s.taskIndex < total then
      launchAux limit total fuel
        { s with activeCount := s.activeCount + 1, taskIndex := s.taskIndex + 1 }
    else s

/-- The launch loop with its natural fuel. -/
def launch (limit total : Nat) (s : RunState) : RunState :=
  launchAux limit total (total - s.taskIndex) s

/-- The runNext closure: if all tasks are accounted for the promise
resolves (the state is returned unchanged, and resolvedAt holds of it);
otherwise the launch loop runs. -/
def runNext (limit total : Nat) (s : RunState) : RunState :=
  if s.results + s.errors = total then s else launch limit total s

/-- Resolution condition of runNext: the results array plus the errors
counter account for every task. -/
def resolvedAt (total : Nat) (s : RunState) : Prop := s.results + s.errors = total

instance (total : Nat) (s : RunState) : Decidable (resolvedAt total s) := by
  unfold resolvedAt; infer_instance

/-- Completion handler of a launched task: the then or catch callback
records the outcome (ok pushes true onto results, otherwise errors is
incremented), the finally callback decrements activeCount, and runNext
is invoked. -/
def completeStep (limit total : Nat) (ok : Bool) (s : RunState) : RunState :=
  let s1 := if ok then { s with results := s.results + 1 }
            else { s with errors := s.errors + 1 }
  let s2 := { s1 with activeCount := s1.activeCount - 1 }
  runNext limit total s2

/-- States the event loop can reach during a run of
runTasksWithConcurrency: the initial runNext call, followed by any
sequence of task completions; a completion requires a task in flight
(activeCount positive) and its outcome ok is chosen by the
environment. -/
inductive Reachable (limit total : Nat) : RunState → Prop where
  | start : Reachable limit total (runNext limit total initState)
  | step {s : RunState} (ok : Bool) :
      Reachable limit total s → 0 < s.activeCount →
      Reachable limit total (completeStep limit total ok s)

/-- A configuration hangs when no reachable state ever satisfies the
resolution condition, i.e. the promise returned by
runTasksWithConcurrency never resolves. -/
def neverResolves (limit total : Nat) : Prop :=
  ∀ s : RunState, Reachable limit total s → ¬ resolvedAt total s

/-- State of the all-failure run after i tasks have completed: no
successes, i errors, and the launch loop has admitted
min total (i + limit) tasks. -/
def allFailState (limit total i : Nat) : RunState :=
  { results := 0, errors := i,
    activeCount := min total (i + limit) - i,
    taskIndex := min total (i + limit) }

/-- Aggregation state of the result-processing forEach of the runner
scripts: the success counter, the failure counter, and the running
totalAmountDepositedWei sum (used only by the AccountBalance runner). -/
structure AggState where
  succ : Nat
  fail : Nat
  totalWei : Nat
deriving Repr, DecidableEq

/-- One step of the forEach over worker results: a well-formed result is
counted by its success flag (a success also adds its amount to the wei
total), and a malformed result (res falsy or success not boolean,
modelled as none) is counted as a failure. -/
def aggStep (acc : AggState) (r : Option WorkerResult) : AggState :=
  match r with
  | some r =>
    if r.success then
      { succ := acc.succ + 1, fail := acc.fail, totalWei := acc.totalWei + r.amount }
    else
      { succ := acc.succ, fail := acc.fail + 1, totalWei := acc.totalWei }
  | none => { succ := acc.succ, fail := acc.fail + 1, totalWei := acc.totalWei }

/-- The whole forEach: fold of aggStep over the results list starting
from zero counters. -/
def aggregate (rs : List (Option WorkerResult)) : AggState :=
  rs.foldl aggStep { succ := 0, fail := 0, totalWei := 0 }

/-- The succeeded outcomes among a list of worker results. -/
def succeededOutcomes (rs : List (Option WorkerResult)) : List WorkerResult :=
  (rs.filterMap id).filter (fun r => r.success)

/-- Expected final contract balance computed by the AccountBalance
runner: initial balance plus the aggregated wei total. -/
def expectedBalance (initial : Nat) (rs : List (Option WorkerResult)) : Nat :=
  initial + (aggregate rs).totalWei

/-- Verification flag of the AccountBalance runner: the observed final
balance equals the expected one. -/
def verifyBalance (initial finalBal : Nat) (rs : List (Option WorkerResult)) : Bool :=
  finalBal == expectedBalance initial rs

/-- Expected final counter value computed by the Counter runner: initial
count plus the number of reported successes. -/
def expectedCount (initial : Nat) (rs : List (Option WorkerResult)) : Nat :=
  initial + (aggregate rs).succ

/-- Verification flag of the Counter runner: the observed final count
equals the expected one. -/
def verifyCount (initial finalCnt : Nat) (rs : List (Option WorkerResult)) : Bool :=
  finalCnt == expectedCount initial rs

theorem launchAux_spec (limit total : Nat) :
    ∀ (fuel : Nat) (s : RunState), total - s.taskIndex ≤ fuel →
    launchAux limit total fuel s =
      { results := s.results, errors := s.errors,
        activeCount := s.activeCount + min (limit - s.activeCount) (total - s.taskIndex),
        taskIndex := s.taskIndex + min (limit - s.activeCount) (total - s.taskIndex) } := by
  intro fuel
  induction fuel with
  | zero =>
    rintro ⟨r, e, a, t⟩ hs
    simp only [launchAux, RunState.mk.injEq, true_and]
    simp only at hs
    omega
  | succ n ih =>
    rintro ⟨r, e, a, t⟩ hs
    simp only at hs
    simp only [launchAux]
    by_cases h : a < limit ∧ t < total
    · rw [if_pos h]
      have hfuel : total - (RunState.mk r e (a + 1) (t + 1)).taskIndex ≤ n := by
        show total - (t + 1) ≤ n
        omega
      rw [ih _ hfuel]
      simp only [RunState.mk.injEq, true_and]
      omega
    · rw [if_neg h]
      simp only [RunState.mk.injEq, true_and]
      omega

theorem launch_spec (limit total : Nat) (s : RunState) :
    launch limit total s =
      { results := s.results, errors := s.errors,
        activeCount := s.activeCount + min (limit - s.activeCount) (total - s.taskIndex),
        taskIndex := s.taskIndex + min (limit - s.activeCount) (total - s.taskIndex) } :=
  launchAux_spec limit total _ s (Nat.le_refl _)

theorem reachable_inv {limit total : Nat} {s : RunState}
    (h : Reachable limit total s) :
    s.results + s.errors + s.activeCount = s.taskIndex ∧
    s.taskIndex ≤ total ∧ s.activeCount ≤ limit := by
  induction h with
  | start =>
    unfold runNext
    split
    · simp [initState]
    · rw [launch_spec]
      simp [initState]
  | @step s ok hr hact ih =>
    obtain ⟨hsum, htot, hlim⟩ := ih
    unfold completeStep runNext
    cases ok <;> simp only [Bool.false_eq_true, if_false, if_true] <;>
      (split
       · simp only []
         omega
       · rw [launch_spec]
         simp only []
         omega)

theorem allFail_reachable (limit total : Nat) (hl : 1 ≤ limit) :
    ∀ i, i ≤ total → Reachable limit total (allFailState limit total i) := by
  intro i
  induction i with
  | zero =>
    intro _
    have h := @Reachable.start limit total
    have he : runNext limit total initState = allFailState limit total 0 := by
      unfold runNext
      split
      · next h0 =>
        simp only [initState] at h0
        simp only [allFailState, initState, RunState.mk.injEq, true_and]
        omega
      · rw [launch_spec]
        simp only [allFailState, initState, RunState.mk.injEq, true_and]
        omega
    rwa [he] at h
  | succ i ih =>
    intro hle
    have hr := ih (by omega)
    have hact : 0 < (allFailState limit total i).activeCount := by
      simp only [allFailState]
      omega
    have h := Reachable.step false hr hact
    have he : completeStep limit total false (allFailState limit total i)
        = allFailState limit total (i + 1) := by
      unfold completeStep runNext
      simp only [Bool.false_eq_true, if_false]
      split
      · next h0 =>
        simp only [allFailState] at h0
        simp only [allFailState, RunState.mk.injEq, true_and]
        omega
      · next h0 =>
        rw [launch_spec]
        simp only [allFailState] at h0
        simp only [allFailState, RunState.mk.injEq, true_and]
        omega
    rwa [he] at h

theorem zero_limit_stuck (total : Nat) (htot : 0 < total) :
    ∀ s : RunState, Reachable 0 total s → s = initState := by
  intro s h
  induction h with
  | start =>
    unfold runNext
    split
    · next h0 =>
      simp only [initState] at h0
      omega
    · rw [launch_spec]
      simp only [initState, RunState.mk.injEq, true_and]
      omega
  | @step s ok hr hact ih =>
    rw [ih] at hact
    simp only [initState] at hact
    omega

theorem attempts_le (pol : RetryPolicy) (dep : Nat) (env : Nat → AttemptResult) :
    ∀ (fuel attempt : Nat) (acc : WorkerResult),
    (runAttemptsAux pol dep env fuel attempt acc).2.1 ≤ attempt + fuel := by
  intro fuel
  induction fuel with
  | zero =>
    intro attempt acc
    simp [runAttemptsAux]
  | succ n ih =>
    intro attempt acc
    simp only [runAttemptsAux]
    split
    · split
      · split
        · dsimp only
          omega
        · dsimp only
          omega
      · rename_i e heq
        split
        · have := ih (attempt + 1)
            { success := false, error := some e.message, amount := 0 }
          dsimp only
          omega
        · dsimp only
          omega
    · dsimp only
      omega

theorem attempts_mono (pol : RetryPolicy) (dep : Nat) (env : Nat → AttemptResult) :
    ∀ (fuel attempt : Nat) (acc : WorkerResult),
    attempt ≤ (runAttemptsAux pol dep env fuel attempt acc).2.1 := by
  intro fuel
  induction fuel with
  | zero =>
    intro attempt acc
    simp [runAttemptsAux]
  | succ n ih =>
    intro attempt acc
    simp only [runAttemptsAux]
    split
    · split
      · split
        · dsimp only
          omega
        · dsimp only
          omega
      · rename_i e heq
        split
        · have := ih (attempt + 1)
            { success := false, error := some e.message, amount := 0 }
          dsimp only
          omega
        · dsimp only
          omega
    · dsimp only
      omega

theorem attempts_ge (pol : RetryPolicy) (dep : Nat) (env : Nat → AttemptResult)
    (fuel attempt : Nat) (acc : WorkerResult)
    (hfuel : 0 < fuel) (hatt : attempt < pol.maxAttempts) :
    attempt + 1 ≤ (runAttemptsAux pol dep env fuel attempt acc).2.1 := by
  obtain ⟨n, rfl⟩ : ∃ n, fuel = n + 1 := ⟨fuel - 1, by omega⟩
  simp only [runAttemptsAux]
  rw [if_pos hatt]
  split
  · split
    · dsimp only
      omega
    · dsimp only
      omega
  · rename_i e heq
    split
    · have := attempts_mono pol dep env n (attempt + 1)
        { success := false, error := some e.message, amount := 0 }
      dsimp only
      omega
    · dsimp only
      omega

theorem amount_discipline (pol : RetryPolicy) (dep : Nat) (env : Nat → AttemptResult) :
    ∀ (fuel attempt : Nat) (acc : WorkerResult),
    acc.success = false → acc.amount = 0 →
    ((runAttemptsAux pol dep env fuel attempt acc).1.success = true →
      (runAttemptsAux pol dep env fuel attempt acc).1.amount = dep) ∧
    ((runAttemptsAux pol dep env fuel attempt acc).1.success = false →
      (runAttemptsAux pol dep env fuel attempt acc).1.amount = 0) := by
  intro fuel
  induction fuel with
  | zero =>
    intro attempt acc hs ha
    simp only [runAttemptsAux]
    constructor
    · intro h
      rw [hs] at h
      simp at h
    · intro _
      exact ha
  | succ n ih =>
    intro attempt acc hs ha
    simp only [runAttemptsAux]
    split
    · split
      · split
        · simp
        · simp
      · rename_i e heq
        split
        · exact ih (attempt + 1)
            { success := false, error := some e.message, amount := 0 } rfl rfl
        · simp
    · constructor
      · intro h
        rw [hs] at h
        simp at h
      · intro _
        exact ha

theorem delays_geometric (pol : RetryPolicy) (dep : Nat) (env : Nat → AttemptResult) :
    ∀ (fuel attempt : Nat) (acc : WorkerResult),
    ∃ n : Nat, (runAttemptsAux pol dep env fuel attempt acc).2.2
      = (List.range n).map (fun j => pol.baseDelay * 2 ^ (attempt + j)) := by
  intro fuel
  induction fuel with
  | zero =>
    intro attempt acc
    exact ⟨0, rfl⟩
  | succ n ih =>
    intro attempt acc
    simp only [runAttemptsAux]
    split
    · split
      · split
        · exact ⟨0, rfl⟩
        · exact ⟨0, rfl⟩
      · rename_i e heq
        split
        · obtain ⟨m, hm⟩ := ih (attempt + 1)
            { success := false, error := some e.message, amount := 0 }
          refine ⟨m + 1, ?_⟩
          dsimp only
          rw [hm, List.range_succ_eq_map, List.map_cons, List.map_map]
          congr 1
          apply List.map_congr_left
          intro j _
          have hexp : attempt + 1 + j = attempt + Nat.succ j := by omega
          simp [Function.comp, hexp]
        · exact ⟨0, rfl⟩
    · exact ⟨0, rfl⟩

theorem succeededOutcomes_cons (r : Option WorkerResult) (rs : List (Option WorkerResult)) :
    succeededOutcomes (r :: rs) =
      match r with
      | some x => if x.success then x :: succeededOutcomes rs else succeededOutcomes rs
      | none => succeededOutcomes rs := by
  cases r with
  | none => simp [succeededOutcomes]
  | some x =>
    by_cases hx : x.success <;> simp [succeededOutcomes, List.filter_cons, hx]

theorem agg_counts (rs : List (Option WorkerResult)) :
    ∀ acc : AggState,
    (rs.foldl aggStep acc).succ + (rs.foldl aggStep acc).fail
      = acc.succ + acc.fail + rs.length := by
  induction rs with
  | nil =>
    intro acc
    simp
  | cons r rs ih =>
    intro acc
    rw [List.foldl_cons, ih]
    cases r with
    | none => simp [aggStep]; omega
    | some x =>
      by_cases hx : x.success <;> simp [aggStep, hx] <;> omega

theorem agg_succ (rs : List (Option WorkerResult)) :
    ∀ acc : AggState,
    (rs.foldl aggStep acc).succ = acc.succ + (succeededOutcomes rs).length := by
  induction rs with
  | nil =>
    intro acc
    simp [succeededOutcomes]
  | cons r rs ih =>
    intro acc
    rw [List.foldl_cons, ih, succeededOutcomes_cons]
    cases r with
    | none => simp [aggStep]
    | some x =>
      by_cases hx : x.success
      all_goals simp [aggStep, hx]
      all_goals omega

theorem agg_wei (rs : List (Option WorkerResult)) :
    ∀ acc : AggState,
    (rs.foldl aggStep acc).totalWei
      = acc.totalWei + ((succeededOutcomes rs).map WorkerResult.amount).sum := by
  induction rs with
  | nil =>
    intro acc
    simp [succeededOutcomes]
  | cons r rs ih =>
    intro acc
    rw [List.foldl_cons, ih, succeededOutcomes_cons]
    cases r with
    | none => simp [aggStep]
    | some x =>
      by_cases hx : x.success
      all_goals simp [aggStep, hx]
      all_goals omega

theorem sum_const_amount (dep : Nat) :
    ∀ l : List WorkerResult, (∀ r ∈ l, r.amount = dep) →
    (l.map WorkerResult.amount).sum = dep * l.length := by
  intro l
  induction l with
  | nil =>
    intro _
    simp
  | cons x l ih =>
    intro h
    have hx : x.amount = dep := h x (List.mem_cons_self x l)
    have hl : ∀ r ∈ l, r.amount = dep := fun r hr => h r (List.mem_cons_of_mem x hr)
    simp [hx, ih hl, Nat.mul_succ]
    omega

/-- C1: in every run of runTasksWithConcurrency, every reachable state
has at most limit tasks in flight (activeCount ≤ limit), and whenever an
in-flight task reaches a terminal outcome while unlaunched tasks remain,
the completion handler immediately admits the next pending task in array
order (taskIndex strictly advances in the completion step). -/
theorem C1_scheduler_concurrency_bound (limit total : Nat) (s : RunState) (ok : Bool)
    (h : Reachable limit total s) :
    s.activeCount ≤ limit ∧
    (0 < s.activeCount → s.taskIndex < total →
      s.taskIndex < (completeStep limit total ok s).taskIndex) := by
  obtain ⟨hsum, htot, hlim⟩ := reachable_inv h
  refine ⟨hlim, ?_⟩
  intro hact htask
  unfold completeStep runNext
  cases ok <;> simp only [Bool.false_eq_true, if_false, if_true] <;>
    (split
     · next h0 =>
         omega
     · rw [launch_spec]
       simp only []
       omega)

/-- Witness for C1 at limit 2, total 3, at the reachable start state,
with a successful completion. -/
theorem C1_scheduler_concurrency_bound_witness :
    (runNext 2 3 initState).activeCount ≤ 2 ∧
    (0 < (runNext 2 3 initState).activeCount → (runNext 2 3 initState).taskIndex < 3 →
      (runNext 2 3 initState).taskIndex
        < (completeStep 2 3 true (runNext 2 3 initState)).taskIndex) :=
  C1_scheduler_concurrency_bound 2 3 (runNext 2 3 initState) true Reachable.start

/-- C2: conservation of outcomes.  In the scheduler, whenever a
reachable state satisfies the resolution condition
results + errors = totalTasks, every task has been admitted
(taskIndex = totalTasks) and none is still in flight (activeCount = 0),
so each task is counted exactly once; and in the runner scripts the
aggregation forEach counts every worker result exactly once as a success
or a failure. -/
theorem C2_conservation :
    (∀ (limit total : Nat) (s : RunState), Reachable limit total s →
      s.results + s.errors = total → s.taskIndex = total ∧ s.activeCount = 0) ∧
    (∀ rs : List (Option WorkerResult),
      (aggregate rs).succ + (aggregate rs).fail = rs.length) := by
  constructor
  · intro limit total s h hres
    obtain ⟨hsum, htot, hlim⟩ := reachable_inv h
    omega
  · intro rs
    have h := agg_counts rs { succ := 0, fail := 0, totalWei := 0 }
    simpa [aggregate] using h

/-- Witness for C2: the resolved start state of an empty run, and the
aggregation of a two-element result list. -/
theorem C2_conservation_witness :
    (initState.taskIndex = 0 ∧ initState.activeCount = 0) ∧
    (aggregate [some { success := true, error := none, amount := 5 }, none]).succ
      + (aggregate [some { success := true, error := none, amount := 5 }, none]).fail
      = 2 := by
  constructor
  · have hr : Reachable 1 0 initState := by
      have h := @Reachable.start 1 0
      have he : runNext 1 0 initState = initState := by decide
      rwa [he] at h
    exact C2_conservation.1 1 0 initState hr (by decide)
  · exact C2_conservation.2 [some { success := true, error := none, amount := 5 }, none]

/-- C3: the Verifier of both runner scripts.  The aggregated wei total is
the sum of the amounts of exactly the succeeded outcomes (failed and
malformed outcomes contribute nothing), and the verified flag is true
exactly when the externally observed final state equals the initially
observed state plus that aggregate effect (for the Counter runner the
effect of each success is 1, so the expected value adds the success
count).  Both verifiers are pure read-only comparisons: they are
functions of the observed values and mutate nothing. -/
theorem C3_verifier (initial finalObs : Nat) (rs : List (Option WorkerResult)) :
    (aggregate rs).totalWei = ((succeededOutcomes rs).map WorkerResult.amount).sum ∧
    (verifyBalance initial finalObs rs = true ↔
      finalObs = initial + ((succeededOutcomes rs).map WorkerResult.amount).sum) ∧
    (verifyCount initial finalObs rs = true ↔
      finalObs = initial + (succeededOutcomes rs).length) := by
  have hw : (aggregate rs).totalWei
      = ((succeededOutcomes rs).map WorkerResult.amount).sum := by
    have h := agg_wei rs { succ := 0, fail := 0, totalWei := 0 }
    simpa [aggregate] using h
  have hsc : (aggregate rs).succ = (succeededOutcomes rs).length := by
    have h := agg_succ rs { succ := 0, fail := 0, totalWei := 0 }
    simpa [aggregate] using h
  refine ⟨hw, ?_, ?_⟩
  · simp [verifyBalance, expectedBalance, hw]
  · simp [verifyCount, expectedCount, hsc]

/-- C7 counterexample: with concurrencyLimit 0 and one task the run is
not rejected with a configuration error; instead no reachable state ever
satisfies the resolution condition, i.e. the promise returned by
runTasksWithConcurrency never resolves: the scheduler hangs. -/
theorem C7_zero_limit_hangs : neverResolves 0 1 := by
  intro s h
  have hs := zero_limit_stuck 1 (by decide) s h
  rw [hs]
  decide

/-- C7 amended: with concurrencyLimit 0 (the only Nat below or at zero;
totalTasks is an array length and cannot be negative) and a nonempty
task list, runTasksWithConcurrency performs no validation: it admits no
task (taskIndex stays 0) and never resolves; no configuration error is
raised. -/
theorem C7_zero_limit_no_admission (total : Nat) (s : RunState)
    (htot : 0 < total) (h : Reachable 0 total s) :
    s.taskIndex = 0 ∧ ¬ resolvedAt total s := by
  have hs := zero_limit_stuck total htot s h
  subst hs
  refine ⟨rfl, ?_⟩
  simp only [resolvedAt, initState]
  omega

/-- Witness for the amended C7 at total 1 and the start state. -/
theorem C7_zero_limit_no_admission_witness :
    initState.taskIndex = 0 ∧ ¬ resolvedAt 1 initState := by
  have hr : Reachable 0 1 initState := by
    have h := @Reachable.start 0 1
    have he : runNext 0 1 initState = initState := by decide
    rwa [he] at h
  exact C7_zero_limit_no_admission 1 initState (by decide) hr

/-- C10: for every limit value, including 0, a run over the empty task
list resolves immediately: the first runNext call hits its base case
(the resolution condition already holds), the state is unchanged, the
results array is empty, the error counter is zero, and no task was
admitted. -/
theorem C10_empty_run (limit : Nat) :
    runNext limit 0 initState = initState ∧
    resolvedAt 0 (runNext limit 0 initState) ∧
    (runNext limit 0 initState).results = 0 ∧
    (runNext limit 0 initState).errors = 0 ∧
    (runNext limit 0 initState).taskIndex = 0 := by
  have he : runNext limit 0 initState = initState := by
    unfold runNext
    simp [initState]
  refine ⟨he, ?_, ?_, ?_, ?_⟩ <;> rw [he] <;> decide

/-- C4: retry decisions of the worker retry loop.  A confirmation
carrying receipt status 0 terminates the task at once as a failure with
the revert message and is never retried (started at attempt counter k
the loop stops with counter k + 1, so a rejection on the first attempt
gives attemptsUsed 1); the retryability test is exactly the disjunction
of the NONCE_EXPIRED code, the three nonce-related message substrings
and the four transient-network message substrings; a raised error is
retried (the loop proceeds to the next attempt after recording the
backoff delay) precisely when that test passes and the attempt budget is
not exhausted, and every other raised error terminates the task as a
failure carrying the error message. -/
theorem C4_retry_classification :
    (∀ (pol : RetryPolicy) (dep : Nat) (env : Nat → AttemptResult)
        (fuel k : Nat) (acc : WorkerResult),
      k < pol.maxAttempts → env (k + 1) = AttemptResult.receipt 0 →
      runAttemptsAux pol dep env (fuel + 1) k acc
        = ({ success := false, error := some revertMsg, amount := 0 }, k + 1, [])) ∧
    (∀ e : ErrInfo, isRetryableError e = true ↔
      (e.code = some "NONCE_EXPIRED" ∨
       strHas (lowerCase e.message) "nonce too low" = true ∨
       strHas (lowerCase e.message) "nonce has already been used" = true ∨
       strHas (lowerCase e.message) "replacement transaction underpriced" = true ∨
       strHas (lowerCase e.message) "failed to detect network" = true ∨
       strHas (lowerCase e.message) "could not detect network" = true ∨
       strHas (lowerCase e.message) "timeout" = true ∨
       strHas (lowerCase e.message) "network error" = true)) ∧
    (∀ (pol : RetryPolicy) (dep : Nat) (env : Nat → AttemptResult)
        (fuel k : Nat) (acc : WorkerResult) (e : ErrInfo),
      k < pol.maxAttempts → env (k + 1) = AttemptResult.raise e →
      isRetryableError e = true → k + 1 < pol.maxAttempts →
      (runAttemptsAux pol dep env (fuel + 1) k acc
        = ((runAttemptsAux pol dep env fuel (k + 1)
              { success := false, error := some e.message, amount := 0 }).1,
           (runAttemptsAux pol dep env fuel (k + 1)
              { success := false, error := some e.message, amount := 0 }).2.1,
           pol.baseDelay * 2 ^ k ::
             (runAttemptsAux pol dep env fuel (k + 1)
              { success := false, error := some e.message, amount := 0 }).2.2)) ∧
      (pol.maxAttempts ≤ k + (fuel + 1) →
        k + 2 ≤ (runAttemptsAux pol dep env (fuel + 1) k acc).2.1)) ∧
    (∀ (pol : RetryPolicy) (dep : Nat) (env : Nat → AttemptResult)
        (fuel k : Nat) (acc : WorkerResult) (e : ErrInfo),
      k < pol.maxAttempts → env (k + 1) = AttemptResult.raise e →
      ¬ (isRetryableError e = true ∧ k + 1 < pol.maxAttempts) →
      runAttemptsAux pol dep env (fuel + 1) k acc
        = ({ success := false, error := some e.message, amount := 0 }, k + 1, [])) := by
  refine ⟨?_, ?_, ?_, ?_⟩
  · intro pol dep env fuel k acc hk henv
    simp only [runAttemptsAux]
    rw [if_pos hk]
    simp [henv]
  · intro e
    simp only [isRetryableError, isNonceError, isNetworkError, Bool.or_eq_true,
      beq_iff_eq, or_assoc]
  · intro pol dep env fuel k acc e hk henv hret hbud
    have heq : runAttemptsAux pol dep env (fuel + 1) k acc
        = ((runAttemptsAux pol dep env fuel (k + 1)
              { success := false, error := some e.message, amount := 0 }).1,
           (runAttemptsAux pol dep env fuel (k + 1)
              { success := false, error := some e.message, amount := 0 }).2.1,
           pol.baseDelay * 2 ^ k ::
             (runAttemptsAux pol dep env fuel (k + 1)
              { success := false, error := some e.message, amount := 0 }).2.2) := by
      simp only [runAttemptsAux]
      rw [if_pos hk]
      simp only [henv]
      rw [if_pos ⟨hret, hbud⟩]
      simp
    refine ⟨heq, ?_⟩
    intro hfuel
    rw [heq]
    have hge := attempts_ge pol dep env fuel (k + 1)
      { success := false, error := some e.message, amount := 0 } (by omega) hbud
    dsimp only
    omega
  · intro pol dep env fuel k acc e hk henv hnc
    simp only [runAttemptsAux]
    rw [if_pos hk]
    simp only [henv]
    rw [if_neg hnc]

/-- Witness for C4 with the counter worker policy: a status 0 receipt at
the first attempt stops with counter 1; a NONCE_EXPIRED error is
classified retryable and leads to a second attempt; an unclassified
error stops with counter 1 and the error message. -/
theorem C4_retry_classification_witness :
    (runAttemptsAux counterRetryPolicy 0 (fun _ => AttemptResult.receipt 0) 99 0 initialResult
       = ({ success := false, error := some revertMsg, amount := 0 }, 1, [])) ∧
    isRetryableError { code := some "NONCE_EXPIRED", message := "k" } = true ∧
    2 ≤ (runAttemptsAux counterRetryPolicy 0
        (fun _ => AttemptResult.raise { code := some "NONCE_EXPIRED", message := "k" })
        101 0 initialResult).2.1 ∧
    (runAttemptsAux counterRetryPolicy 0
        (fun _ => AttemptResult.raise { code := none, message := "boom" }) 99 0 initialResult
       = ({ success := false, error := some "boom", amount := 0 }, 1, [])) := by
  refine ⟨?_, ?_, ?_, ?_⟩
  · exact C4_retry_classification.1 counterRetryPolicy 0 _ 98 0 initialResult (by decide) rfl
  · exact (C4_retry_classification.2.1 { code := some "NONCE_EXPIRED", message := "k" }).mpr
      (Or.inl rfl)
  · exact (C4_retry_classification.2.2.1 counterRetryPolicy 0
      (fun _ => AttemptResult.raise { code := some "NONCE_EXPIRED", message := "k" })
      100 0 initialResult { code := some "NONCE_EXPIRED", message := "k" }
      (by decide) rfl (by decide) (by decide)).2 (by decide)
  · exact C4_retry_classification.2.2.2 counterRetryPolicy 0
      (fun _ => AttemptResult.raise { code := none, message := "boom" })
      98 0 initialResult { code := none, message := "boom" }
      (by decide) rfl (by decide)

/-- C5: retry bound and termination.  The worker body, a total function
here (the loop always reaches a terminal outcome by breaking on success,
rejection, terminal error or budget exhaustion), leaves the attempt
counter at most maxAttempts for every environment: attemptsUsed never
exceeds the budget. -/
theorem C5_retry_bound (pol : RetryPolicy) (dep : Nat) (env : Nat → AttemptResult) :
    (runWorker pol dep env).2.1 ≤ pol.maxAttempts := by
  have h := attempts_le pol dep env pol.maxAttempts 0 initialResult
  simpa [runWorker] using h

/-- C6: backoff schedule.  For every environment the chronological list
of backoff delays of the worker body is an initial segment of the
geometric sequence baseDelay * 2 ^ j: its j-th entry (zero-based), the
delay inserted after attempt j + 1 fails and before attempt j + 2
starts, equals baseDelay * 2 ^ j, which is baseDelay * factor ^ (k - 1)
for the delay before attempt k + 1; hence the delay list is
non-decreasing. -/
theorem C6_backoff (pol : RetryPolicy) (dep : Nat) (env : Nat → AttemptResult) :
    (∃ n : Nat, (runWorker pol dep env).2.2
      = (List.range n).map (fun j => pol.baseDelay * 2 ^ j)) ∧
    List.Sorted (· ≤ ·) (runWorker pol dep env).2.2 := by
  obtain ⟨n, hn⟩ := delays_geometric pol dep env pol.maxAttempts 0 initialResult
  have hn2 : (runWorker pol dep env).2.2
      = (List.range n).map (fun j => pol.baseDelay * 2 ^ j) := by
    simpa [runWorker] using hn
  refine ⟨⟨n, hn2⟩, ?_⟩
  rw [hn2]
  refine (List.pairwise_lt_range n).map _ ?_
  intro a b hab
  have hpow : (2 : Nat) ^ a ≤ 2 ^ b := Nat.pow_le_pow_right (by norm_num) (Nat.le_of_lt hab)
  exact Nat.mul_le_mul_left _ hpow

/-- C8: failure containment.  An error the classifier does not recognise
is converted by the retry loop into a terminal failed result carrying
the error message (never an escaping exception: the worker body is a
total function into results); and for every positive limit the scheduler
reaches a resolved state even when every completion is a failure, so the
run completes and the report is emitted under 100 percent task
failure. -/
theorem C8_failures_contained :
    (∀ (pol : RetryPolicy) (dep : Nat) (e : ErrInfo),
      1 ≤ pol.maxAttempts → isRetryableError e = false →
      runWorker pol dep (fun _ => AttemptResult.raise e)
        = ({ success := false, error := some e.message, amount := 0 }, 1, [])) ∧
    (∀ limit total : Nat, 1 ≤ limit →
      ∃ s : RunState, Reachable limit total s ∧ s.results = 0 ∧ s.errors = total ∧
        resolvedAt total s) := by
  constructor
  · intro pol dep e hmax hnr
    obtain ⟨m, hm⟩ : ∃ m, pol.maxAttempts = m + 1 := ⟨pol.maxAttempts - 1, by omega⟩
    unfold runWorker
    rw [hm]
    simp only [runAttemptsAux]
    rw [if_pos (by omega : 0 < pol.maxAttempts)]
    simp [hnr]
  · intro limit total hl
    refine ⟨allFailState limit total total, allFail_reachable limit total hl total (Nat.le_refl total),
      rfl, rfl, ?_⟩
    simp [resolvedAt, allFailState]

/-- Witness for C8: a concrete unclassified error with the counter
worker policy, and the all-failure run at limit 2, total 3. -/
theorem C8_failures_contained_witness :
    runWorker counterRetryPolicy 0
        (fun _ => AttemptResult.raise { code := none, message := "boom" })
      = ({ success := false, error := some "boom", amount := 0 }, 1, []) ∧
    ∃ s : RunState, Reachable 2 3 s ∧ s.results = 0 ∧ s.errors = 3 ∧ resolvedAt 3 s := by
  constructor
  · exact C8_failures_contained.1 counterRetryPolicy 0 { code := none, message := "boom" }
      (by decide) (by decide)
  · exact C8_failures_contained.2 2 3 (by decide)

/-- C9: deposit amounts.  The result of the worker body carries amount 0
whenever success is false (revert, budget exhaustion or terminal error)
and carries the requested deposit amount whenever success is true; and
when every succeeded outcome carries the same deposit amount, the
aggregated wei total of the runner equals that amount times the success
count. -/
theorem C9_deposit_amounts :
    (∀ (pol : RetryPolicy) (dep : Nat) (env : Nat → AttemptResult),
      ((runWorker pol dep env).1.success = true → (runWorker pol dep env).1.amount = dep) ∧
      ((runWorker pol dep env).1.success = false → (runWorker pol dep env).1.amount = 0)) ∧
    (∀ (dep : Nat) (rs : List (Option WorkerResult)),
      (∀ r ∈ succeededOutcomes rs, r.amount = dep) →
      (aggregate rs).totalWei = dep * (aggregate rs).succ) := by
  constructor
  · intro pol dep env
    have h := amount_discipline pol dep env pol.maxAttempts 0 initialResult rfl rfl
    simpa [runWorker] using h
  · intro dep rs hr
    have hw : (aggregate rs).totalWei
        = ((succeededOutcomes rs).map WorkerResult.amount).sum := by
      have h := agg_wei rs { succ := 0, fail := 0, totalWei := 0 }
      simpa [aggregate] using h
    have hsc : (aggregate rs).succ = (succeededOutcomes rs).length := by
      have h := agg_succ rs { succ := 0, fail := 0, totalWei := 0 }
      simpa [aggregate] using h
    rw [hw, hsc, sum_const_amount dep (succeededOutcomes rs) hr]

/-- Witness for C9: a worker run that succeeds on the first attempt with
deposit amount 7, and the aggregation of one successful outcome of
amount 7. -/
theorem C9_deposit_amounts_witness :
    (((runWorker depositRetryPolicy 7 (fun _ => AttemptResult.receipt 1)).1.success = true →
       (runWorker depositRetryPolicy 7 (fun _ => AttemptResult.receipt 1)).1.amount = 7) ∧
     ((runWorker depositRetryPolicy 7 (fun _ => AttemptResult.receipt 1)).1.success = false →
       (runWorker depositRetryPolicy 7 (fun _ => AttemptResult.receipt 1)).1.amount = 0)) ∧
    (aggregate [some { success := true, error := none, amount := 7 }]).totalWei
      = 7 * (aggregate [some { success := true, error := none, amount := 7 }]).succ := by
  constructor
  · exact C9_deposit_amounts.1 depositRetryPolicy 7 (fun _ => AttemptResult.receipt 1)
  · exact C9_deposit_amounts.2 7 [some { success := true, error := none, amount := 7 }]
      (by decide)

end Harness
